import Mathlib

/-!
Shallow embedding of `fastrand64.go` (package fastrand64).

Machine `uint64` values are modelled as `Nat` reduced modulo `2 ^ 64` at every
operation that can overflow (multiplication, addition, left shift); bitwise
xor/or/and and right shift cannot overflow and are left unreduced.  Go `int64`
arguments are modelled as `Int`, with the Go conversion `uint64(x)` rendered as
`(x % (2 ^ 64 : Int)).toNat`.  The potentially non-terminating seeding loop is
given an explicit fuel parameter and returns `Option`; `none` means the loop
did not finish within the given fuel.
-/

namespace Fastrand64

/-- `2 ^ 64`, the modulus of Go `uint64` arithmetic. -/
def u64 : Nat := 2 ^ 64

/-- `func rol64(x, k uint64) uint64 { return (x << k) | (x >> (64 - k)) }`.
The left shift truncates to 64 bits as in Go. -/
def rol64 (x k : Nat) : Nat :=
  ((x <<< k) % u64) ||| (x >>> (64 - k))

/-- `func splitmix64(index uint64) uint64` — add-constant, two
xorshift-multiply rounds, final xorshift, all modulo `2 ^ 64`. -/
def splitmix64 (index : Nat) : Nat :=
  let z := (index + 0x9E3779B97F4A7C15) % u64
  let z := ((z ^^^ (z >>> 30)) * 0xBF58476D1CE4E5B9) % u64
  let z := ((z ^^^ (z >>> 27)) * 0x94D049BB133111EB) % u64
  z ^^^ (z >>> 31)

/-- `type UnsafeXoshiro256ssRNG struct { s [4]uint64 }` — the four state
words `s[0] .. s[3]` as separate fields. -/
structure UnsafeXoshiro256ssRNG where
  s0 : Nat
  s1 : Nat
  s2 : Nat
  s3 : Nat
  deriving DecidableEq, Repr

/-- `func (r *UnsafeXoshiro256ssRNG) Uint64() uint64` — one step of the
xoshiro256** generator.  The Go method mutates the receiver and returns the
result; here it returns the pair (result, new state).  The sequential
assignments `s[2] ^= s[0]; s[3] ^= s[1]; s[1] ^= s[2]; s[0] ^= s[3];
s[2] ^= t; s[3] = rol64(s[3], 45)` are rendered by `let`-chaining, so later
assignments see the values written by earlier ones. -/
def UnsafeXoshiro256ssRNG.Uint64 (r : UnsafeXoshiro256ssRNG) :
    Nat × UnsafeXoshiro256ssRNG :=
  let result := (rol64 ((r.s1 * 5) % u64) 7 * 9) % u64
  let t := (r.s1 <<< 17) % u64
  let s2a := r.s2 ^^^ r.s0
  let s3a := r.s3 ^^^ r.s1
  let s1a := r.s1 ^^^ s2a
  let s0a := r.s0 ^^^ s3a
  let s2b := s2a ^^^ t
  let s3b := rol64 s3a 45
  (result, ⟨s0a, s1a, s2b, s3b⟩)

/-- The inner loop `for r.s[i] == 0 { r.s[i] = splitmix64(uint64(seed) + uint64(i)) }`
of `Seed`.  `v` is the (loop-invariant) value `splitmix64(uint64(seed)+uint64(i))`,
`cur` is the current content of `r.s[i]`, and `fuel` bounds the number of
assignments; `none` means the loop did not exit within `fuel` assignments. -/
def seedWordLoop (v : Nat) : Nat → Nat → Option Nat
  | 0, cur => if cur = 0 then none else some cur
  | fuel + 1, cur => if cur = 0 then seedWordLoop v fuel v else some cur

/-- `func (r *UnsafeXoshiro256ssRNG) Seed(seed int64)` — runs `seedWordLoop`
for each of the four state words in order (`uint64(seed) + uint64(i)` wraps
modulo `2 ^ 64`). -/
def UnsafeXoshiro256ssRNG.Seed (r : UnsafeXoshiro256ssRNG) (seed : Int)
    (fuel : Nat) : Option UnsafeXoshiro256ssRNG :=
  let u := (seed % (2 ^ 64 : Int)).toNat
  do
    let w0 ← seedWordLoop (splitmix64 ((u + 0) % u64)) fuel r.s0
    let w1 ← seedWordLoop (splitmix64 ((u + 1) % u64)) fuel r.s1
    let w2 ← seedWordLoop (splitmix64 ((u + 2) % u64)) fuel r.s2
    let w3 ← seedWordLoop (splitmix64 ((u + 3) % u64)) fuel r.s3
    some ⟨w0, w1, w2, w3⟩

/-- `func NewUnsafeXoshiro256ssRNG(seed int64) *UnsafeXoshiro256ssRNG` —
seeds a zero-initialized struct. -/
def NewUnsafeXoshiro256ssRNG (seed : Int) (fuel : Nat) :
    Option UnsafeXoshiro256ssRNG :=
  UnsafeXoshiro256ssRNG.Seed ⟨0, 0, 0, 0⟩ seed fuel

/-- The sequence of the first `m` outputs of repeated `Uint64` calls on a
generator instance. -/
def traceN (r : UnsafeXoshiro256ssRNG) : Nat → List Nat
  | 0 => []
  | m + 1 =>
    let p := r.Uint64
    p.1 :: traceN p.2 m

/-- Output of the chunk loop of `Bytes`: the buffer, the generator state, the
write cursor `i`, and the number of `Uint64` calls made so far (the draw
count is instrumentation used to state entropy-consumption properties; it has
no counterpart in the Go code). -/
structure BytesOut (σ : Type) where
  buf : List Nat
  g : σ
  i : Nat
  draws : Nat

/-- The eight assignments `bytes[i] = byte(x) .. bytes[i+7] = byte(x >> 56)`
of the chunk loop body; `byte(e)` is `e % 256`. -/
def setBytes8 (bytes : List Nat) (i x : Nat) : List Nat :=
  (((((((bytes.set i (x % 256)).set (i + 1) ((x >>> 8) % 256)).set
      (i + 2) ((x >>> 16) % 256)).set (i + 3) ((x >>> 24) % 256)).set
      (i + 4) ((x >>> 32) % 256)).set (i + 5) ((x >>> 40) % 256)).set
      (i + 6) ((x >>> 48) % 256)).set (i + 7) ((x >>> 56) % 256)

/-- The first loop of `Bytes`: while `bytesToGo >= 8`, draw one word, write
its 8 bytes at `i`, advance `i` by 8 and decrease `bytesToGo` by 8.  The
first argument is `bytesToGo`; the generic `step` plays the role of the
`UnsafeRNG` interface's `Uint64` method. -/
def bytesChunks {σ : Type} (step : σ → Nat × σ) :
    Nat → σ → List Nat → Nat → Nat → BytesOut σ
  | b + 8, g, bytes, i, cnt =>
    let p := step g
    bytesChunks step b p.2 (setBytes8 bytes i p.1) (i + 8) (cnt + 1)
  | _, g, bytes, i, cnt => ⟨bytes, g, i, cnt⟩

/-- The second loop of `Bytes`: while `i < n`, write `byte(x)` at `i`, shift
`x` right by 8 and advance `i`.  The last argument is the remaining count
`n - i`, which decreases by one per iteration exactly as the loop condition
`i < n` dictates. -/
def tailLoop (x i : Nat) (bytes : List Nat) : Nat → List Nat
  | 0 => bytes
  | r + 1 => tailLoop (x >>> 8) (i + 1) (bytes.set i (x % 256)) r

/-- `func Bytes(r UnsafeRNG, bytes []byte) []byte` — the chunk loop, then one
unconditional extra draw feeding the tail loop.  Returns the filled buffer,
the final generator state and the total number of `Uint64` calls. -/
def Bytes {σ : Type} (step : σ → Nat × σ) (g : σ) (bytes : List Nat) :
    List Nat × σ × Nat :=
  let n := bytes.length
  let o := bytesChunks step n g bytes 0 0
  let p := step o.g
  (tailLoop p.1 o.i o.buf (n - o.i), p.2, o.draws + 1)

/-- `type ThreadsafePoolRNG struct { rngPool sync.Pool }` — the pool is
modelled as the list of idle instances plus the factory passed to
`NewSyncPoolRNG`; pooled instances are any type with a `Uint64`-shaped step
function (the `UnsafeRNG` interface).  `sync.Pool.Get` removes an arbitrary
idle instance or constructs a fresh one; the model removes the head. -/
structure ThreadsafePoolRNG (σ : Type) where
  step : σ → Nat × σ
  idle : List σ
  factory : Unit → σ

/-- `s.rngPool.Get()` — take an idle instance, or construct one. -/
def ThreadsafePoolRNG.Get {σ : Type} (s : ThreadsafePoolRNG σ) :
    σ × ThreadsafePoolRNG σ :=
  match s.idle with
  | r :: rest => (r, { s with idle := rest })
  | [] => (s.factory (), s)

/-- `s.rngPool.Put(r)` — return an instance to the idle set. -/
def ThreadsafePoolRNG.Put {σ : Type} (s : ThreadsafePoolRNG σ) (r : σ) :
    ThreadsafePoolRNG σ :=
  { s with idle := r :: s.idle }

/-- `func (s *ThreadsafePoolRNG) Uint64() uint64` — Get, one draw, Put. -/
def ThreadsafePoolRNG.Uint64 {σ : Type} (s : ThreadsafePoolRNG σ) :
    Nat × ThreadsafePoolRNG σ :=
  let q := s.Get
  let p := s.step q.1
  (p.1, q.2.Put p.2)

/-- `func (s *ThreadsafePoolRNG) Int63() int64` — the drawn word masked with
`0x7FFFFFFFFFFFFFFF`; the Go `int64` conversion of the masked value is
value-preserving because the mask clears the sign bit. -/
def ThreadsafePoolRNG.Int63 {σ : Type} (s : ThreadsafePoolRNG σ) :
    Int × ThreadsafePoolRNG σ :=
  let p := s.Uint64
  (Int.ofNat (0x7FFFFFFFFFFFFFFF &&& p.1), p.2)

/-- `func (s *ThreadsafePoolRNG) Seed(seed int64)` — unconditionally aborts
with the message `"Cant seed a ThreadsafePoolRNG"` before touching the pool;
the abort is modelled as an `Except.error` result paired with the unchanged
pool state. -/
def ThreadsafePoolRNG.Seed {σ : Type} (s : ThreadsafePoolRNG σ) (_seed : Int) :
    Except String Unit × ThreadsafePoolRNG σ :=
  (Except.error "Cant seed a ThreadsafePoolRNG", s)

/-- `func (r *ThreadsafePoolRNG) Uint32n(maxN int) uint32` — low 32 bits of
one pooled draw, multiplied by `uint64(maxN)` modulo `2 ^ 64`, shifted right
by 32; the `uint32` conversion of the result is `% 2 ^ 32`. -/
def ThreadsafePoolRNG.Uint32n {σ : Type} (s : ThreadsafePoolRNG σ)
    (maxN : Int) : Nat × ThreadsafePoolRNG σ :=
  let p := s.Uint64
  let x := p.1 &&& 0x00000000FFFFFFFF
  (((x * (maxN % (2 ^ 64 : Int)).toNat % u64) >>> 32) % 2 ^ 32, p.2)

end Fastrand64

namespace Fastrand64

/-- If the per-word seeding loop exits, the word it stored is non-zero. -/
theorem seedWordLoop_some_ne_zero {v : Nat} :
    ∀ {fuel cur w : Nat}, seedWordLoop v fuel cur = some w → w ≠ 0 := by
  intro fuel
  induction fuel with
  | zero =>
    intro cur w h
    by_cases hc : cur = 0 <;> simp [seedWordLoop, hc] at h
    omega
  | succ n ih =>
    intro cur w h
    by_cases hc : cur = 0
    · rw [seedWordLoop, if_pos hc] at h
      exact ih h
    · rw [seedWordLoop, if_neg hc] at h
      cases h
      exact hc

/-- With the loop-invariant candidate `v = 0`, the per-word seeding loop
started on a zero word never exits, whatever the fuel. -/
theorem seedWordLoop_zero_none : ∀ fuel : Nat, seedWordLoop 0 fuel 0 = none := by
  intro fuel
  induction fuel with
  | zero => simp [seedWordLoop]
  | succ n ih => rw [seedWordLoop, if_pos rfl]; exact ih

/-- If the per-word seeding loop started on a zero word exits, the stored
word is exactly the candidate `v`. -/
theorem seedWordLoop_some_eq {v : Nat} :
    ∀ {fuel w : Nat}, seedWordLoop v fuel 0 = some w → w = v := by
  intro fuel
  induction fuel with
  | zero => intro w h; simp [seedWordLoop] at h
  | succ n ih =>
    intro w h
    rw [seedWordLoop, if_pos rfl] at h
    by_cases hv : v = 0
    · rw [hv] at h
      rw [seedWordLoop_zero_none n] at h
      cases h
    · cases n with
      | zero =>
        rw [seedWordLoop, if_neg hv] at h
        cases h; rfl
      | succ m =>
        rw [seedWordLoop, if_neg hv] at h
        cases h; rfl

/-- Seeding from the zero-initialized state stores exactly
`splitmix64(uint64(seed) + i)` in word `i`, whenever it returns. -/
theorem seed_words_determined (k : Int) (fuel : Nat)
    (st : UnsafeXoshiro256ssRNG)
    (h : NewUnsafeXoshiro256ssRNG k fuel = some st) :
    st = ⟨splitmix64 (((k % (2 ^ 64 : Int)).toNat + 0) % u64),
          splitmix64 (((k % (2 ^ 64 : Int)).toNat + 1) % u64),
          splitmix64 (((k % (2 ^ 64 : Int)).toNat + 2) % u64),
          splitmix64 (((k % (2 ^ 64 : Int)).toNat + 3) % u64)⟩ := by
  simp only [NewUnsafeXoshiro256ssRNG, UnsafeXoshiro256ssRNG.Seed, bind,
    Option.bind_eq_some, Option.some.injEq] at h
  obtain ⟨w0, h0, w1, h1, w2, h2, w3, h3, heq⟩ := h
  subst heq
  rw [seedWordLoop_some_eq h0, seedWordLoop_some_eq h1,
    seedWordLoop_some_eq h2, seedWordLoop_some_eq h3]

/-- C4: whenever seeding a fresh (zero-initialized) generator returns, all
four state words are non-zero, for every int64 seed value. -/
theorem seed_nonzero_state (k : Int) (fuel : Nat) (st : UnsafeXoshiro256ssRNG)
    (h : NewUnsafeXoshiro256ssRNG k fuel = some st) :
    st.s0 ≠ 0 ∧ st.s1 ≠ 0 ∧ st.s2 ≠ 0 ∧ st.s3 ≠ 0 := by
  simp only [NewUnsafeXoshiro256ssRNG, UnsafeXoshiro256ssRNG.Seed, bind,
    Option.bind_eq_some, Option.some.injEq] at h
  obtain ⟨w0, h0, w1, h1, w2, h2, w3, h3, heq⟩ := h
  subst heq
  exact ⟨seedWordLoop_some_ne_zero h0, seedWordLoop_some_ne_zero h1,
    seedWordLoop_some_ne_zero h2, seedWordLoop_some_ne_zero h3⟩

/-- Witness for C4: seeding with `k = 42` and fuel 1 succeeds and the
resulting four words are non-zero. -/
theorem seed_nonzero_state_witness :
    ((NewUnsafeXoshiro256ssRNG 42 1).getD ⟨0, 0, 0, 0⟩).s0 ≠ 0 ∧
      ((NewUnsafeXoshiro256ssRNG 42 1).getD ⟨0, 0, 0, 0⟩).s1 ≠ 0 ∧
      ((NewUnsafeXoshiro256ssRNG 42 1).getD ⟨0, 0, 0, 0⟩).s2 ≠ 0 ∧
      ((NewUnsafeXoshiro256ssRNG 42 1).getD ⟨0, 0, 0, 0⟩).s3 ≠ 0 :=
  seed_nonzero_state 42 1 _ (by decide)

/-- C8: two fresh generators seeded with the same int64 value `k` (with any
fuels for which seeding returns) produce identical `Uint64` output sequences
of every length `m` — seeding and stepping are deterministic. -/
theorem seeding_deterministic (k : Int) (f1 f2 : Nat)
    (st1 st2 : UnsafeXoshiro256ssRNG) (m : Nat)
    (h1 : NewUnsafeXoshiro256ssRNG k f1 = some st1)
    (h2 : NewUnsafeXoshiro256ssRNG k f2 = some st2) :
    traceN st1 m = traceN st2 m := by
  rw [seed_words_determined k f1 st1 h1, seed_words_determined k f2 st2 h2]

/-- Witness for C8: two seedings with `k = 42` (fuels 1 and 2) yield equal
3-step output sequences. -/
theorem seeding_deterministic_witness :
    traceN ((NewUnsafeXoshiro256ssRNG 42 1).getD ⟨0, 0, 0, 0⟩) 3 =
      traceN ((NewUnsafeXoshiro256ssRNG 42 2).getD ⟨0, 0, 0, 0⟩) 3 :=
  seeding_deterministic 42 1 2 _ _ 3 (by decide) (by decide)

/-- C3: one `Uint64` call returns `rol64(s1*5, 7) * 9` (mod `2^64`) and the
new state resolves the sequential assignments as specified: with
`t = s1 <<< 17` (mod `2^64`), new `s2` before the `t`-xor is `s2 ^^^ s0`, new
`s3` before rotation is `s3 ^^^ s1`, new `s1` xors in the already-updated
`s2`, new `s0` xors in the already-updated `s3`, then `s2` xors in `t` and
`s3` is rotated left by 45. -/
theorem uint64_step_spec (s0 s1 s2 s3 : Nat) :
    UnsafeXoshiro256ssRNG.Uint64 ⟨s0, s1, s2, s3⟩ =
      ((rol64 ((s1 * 5) % u64) 7 * 9) % u64,
        ⟨s0 ^^^ (s3 ^^^ s1),
         s1 ^^^ (s2 ^^^ s0),
         (s2 ^^^ s0) ^^^ ((s1 <<< 17) % u64),
         rol64 (s3 ^^^ s1) 45⟩) := rfl

/-- C9: the all-zero state is a fixed point of the step function: from state
`(0,0,0,0)`, `Uint64` returns 0 and leaves all four words zero. -/
theorem all_zero_state_fixed_point :
    UnsafeXoshiro256ssRNG.Uint64 ⟨0, 0, 0, 0⟩ = (0, ⟨0, 0, 0, 0⟩) := by
  decide

/-- C2 (refutation of the claim's termination statement for the code as
written): for the int64 seed `0x61C8864680B583EB = 7046029254386353131`, the
candidate `splitmix64(uint64(seed) + 0)` equals 0, and since the loop body
recomputes the same candidate on every iteration, no amount of fuel makes
`Seed` return: the seeding loop runs forever on word 0. -/
theorem seed_diverges_on_splitmix_zero_preimage :
    ∀ fuel : Nat,
      NewUnsafeXoshiro256ssRNG (0x61C8864680B583EB : Int) fuel = none := by
  intro fuel
  have hz : splitmix64 ((((0x61C8864680B583EB : Int) % (2 ^ 64 : Int)).toNat
      + 0) % u64) = 0 := by decide
  simp only [NewUnsafeXoshiro256ssRNG, UnsafeXoshiro256ssRNG.Seed]
  rw [hz, seedWordLoop_zero_none fuel]
  rfl

/-- `setBytes8` preserves the buffer length. -/
theorem setBytes8_length (bytes : List Nat) (i x : Nat) :
    (setBytes8 bytes i x).length = bytes.length := by
  simp [setBytes8]

/-- `setBytes8` does not touch positions below the write cursor. -/
theorem setBytes8_below (bytes : List Nat) (i x j : Nat) (hj : j < i) :
    (setBytes8 bytes i x)[j]? = bytes[j]? := by
  simp only [setBytes8]
  repeat rw [List.getElem?_set_ne (by omega)]

/-- `setBytes8` writes the eight little-endian bytes of `x` at positions
`i .. i+7`. -/
theorem setBytes8_getElem (bytes : List Nat) (i x j : Nat) (hj : j < 8)
    (hlen : i + 8 ≤ bytes.length) :
    (setBytes8 bytes i x)[i + j]? = some ((x >>> (8 * j)) % 256) := by
  interval_cases j <;>
    (simp only [setBytes8, Nat.add_zero]
     repeat rw [List.getElem?_set_ne (by omega)]
     rw [List.getElem?_set_self (by (repeat rw [List.length_set]); omega)]
     try norm_num)

/-- The chunk loop exits immediately when fewer than 8 bytes remain. -/
theorem bytesChunks_lt8 {σ : Type} (step : σ → Nat × σ) (b : Nat) (g : σ)
    (bytes : List Nat) (i cnt : Nat) (hb : b < 8) :
    bytesChunks step b g bytes i cnt = ⟨bytes, g, i, cnt⟩ := by
  interval_cases b <;> rfl

/-- One iteration of the chunk loop: draw a word, write its 8 bytes,
advance. -/
theorem bytesChunks_succ {σ : Type} (step : σ → Nat × σ) (m : Nat) (g : σ)
    (bytes : List Nat) (i cnt : Nat) :
    bytesChunks step (m + 8) g bytes i cnt =
      bytesChunks step m (step g).2 (setBytes8 bytes i (step g).1) (i + 8)
        (cnt + 1) := rfl

/-- The chunk loop draws exactly `bytesToGo / 8` words. -/
theorem bytesChunks_draws {σ : Type} (step : σ → Nat × σ) (b : Nat) :
    ∀ (g : σ) (bytes : List Nat) (i cnt : Nat),
      (bytesChunks step b g bytes i cnt).draws = cnt + b / 8 := by
  induction b using Nat.strong_induction_on with
  | _ b ih =>
    intro g bytes i cnt
    rcases Nat.lt_or_ge b 8 with hb | hb
    · rw [bytesChunks_lt8 step b g bytes i cnt hb]
      have hb0 : b / 8 = 0 := Nat.div_eq_of_lt hb
      simp [hb0]
    · obtain ⟨m, rfl⟩ : ∃ m, b = m + 8 := ⟨b - 8, by omega⟩
      rw [bytesChunks_succ, ih m (by omega)]
      omega

/-- The chunk loop preserves the buffer length. -/
theorem bytesChunks_length {σ : Type} (step : σ → Nat × σ) (b : Nat) :
    ∀ (g : σ) (bytes : List Nat) (i cnt : Nat),
      (bytesChunks step b g bytes i cnt).buf.length = bytes.length := by
  induction b using Nat.strong_induction_on with
  | _ b ih =>
    intro g bytes i cnt
    rcases Nat.lt_or_ge b 8 with hb | hb
    · rw [bytesChunks_lt8 step b g bytes i cnt hb]
    · obtain ⟨m, rfl⟩ : ∃ m, b = m + 8 := ⟨b - 8, by omega⟩
      rw [bytesChunks_succ, ih m (by omega), setBytes8_length]

/-- The chunk loop never moves the write cursor backwards. -/
theorem bytesChunks_i_ge {σ : Type} (step : σ → Nat × σ) (b : Nat) :
    ∀ (g : σ) (bytes : List Nat) (i cnt : Nat),
      i ≤ (bytesChunks step b g bytes i cnt).i := by
  induction b using Nat.strong_induction_on with
  | _ b ih =>
    intro g bytes i cnt
    rcases Nat.lt_or_ge b 8 with hb | hb
    · rw [bytesChunks_lt8 step b g bytes i cnt hb]
    · obtain ⟨m, rfl⟩ : ∃ m, b = m + 8 := ⟨b - 8, by omega⟩
      rw [bytesChunks_succ]
      exact le_trans (by omega) (ih m (by omega) _ _ (i + 8) _)

/-- The chunk loop does not touch positions below the initial cursor. -/
theorem bytesChunks_below {σ : Type} (step : σ → Nat × σ) (b : Nat) :
    ∀ (g : σ) (bytes : List Nat) (i cnt j : Nat), j < i →
      (bytesChunks step b g bytes i cnt).buf[j]? = bytes[j]? := by
  induction b using Nat.strong_induction_on with
  | _ b ih =>
    intro g bytes i cnt j hj
    rcases Nat.lt_or_ge b 8 with hb | hb
    · rw [bytesChunks_lt8 step b g bytes i cnt hb]
    · obtain ⟨m, rfl⟩ : ∃ m, b = m + 8 := ⟨b - 8, by omega⟩
      rw [bytesChunks_succ, ih m (by omega) _ _ _ _ _ (by omega),
        setBytes8_below bytes i _ j hj]

/-- The tail loop preserves the buffer length. -/
theorem tailLoop_length (r : Nat) :
    ∀ (x i : Nat) (bytes : List Nat),
      (tailLoop x i bytes r).length = bytes.length := by
  induction r with
  | zero => intro x i bytes; rfl
  | succ n ih =>
    intro x i bytes
    simp only [tailLoop]
    rw [ih, List.length_set]

/-- The tail loop does not touch positions below the cursor. -/
theorem tailLoop_below (r : Nat) :
    ∀ (x i : Nat) (bytes : List Nat) (j : Nat), j < i →
      (tailLoop x i bytes r)[j]? = bytes[j]? := by
  induction r with
  | zero => intro x i bytes j _; rfl
  | succ n ih =>
    intro x i bytes j hj
    simp only [tailLoop]
    rw [ih _ _ _ _ (by omega), List.getElem?_set_ne (by omega)]

/-- The tail loop writes the little-endian bytes of `x` at positions
`i .. i + r - 1`. -/
theorem tailLoop_getElem (r : Nat) :
    ∀ (x i : Nat) (bytes : List Nat) (j : Nat), i ≤ j → j < i + r →
      j < bytes.length →
      (tailLoop x i bytes r)[j]? = some ((x >>> (8 * (j - i))) % 256) := by
  induction r with
  | zero => intro x i bytes j h1 h2 h3; omega
  | succ n ih =>
    intro x i bytes j h1 h2 h3
    simp only [tailLoop]
    rcases Nat.eq_or_lt_of_le h1 with rfl | hlt
    · rw [tailLoop_below n _ _ _ _ (by omega), List.getElem?_set_self h3]
      simp
    · rw [ih (x >>> 8) (i + 1) _ j hlt (by omega)
        (by rw [List.length_set]; exact h3)]
      have h8 : 8 * (j - i) = 8 + 8 * (j - (i + 1)) := by omega
      rw [h8, Nat.shiftRight_add]

/-- C1 (amended): a fill call draws exactly `n / 8 + 1` words — the
`floor(n/8)` chunk draws plus one unconditional extra word — so it never
draws more than one word beyond `floor(n/8)`; for `n = 0` the buffer is
returned unchanged (but one word is still drawn). -/
theorem bytes_draws_exact {σ : Type} (step : σ → Nat × σ) (g : σ)
    (bytes : List Nat) :
    (Bytes step g bytes).2.2 = bytes.length / 8 + 1 ∧
      (bytes = [] → (Bytes step g bytes).1 = bytes) := by
  refine ⟨?_, ?_⟩
  · simp only [Bytes, bytesChunks_draws]
    omega
  · rintro rfl
    rfl

/-- Witness for C1 (amended): with a counter generator and an empty buffer,
the fill draws exactly one word and returns the buffer unchanged. -/
theorem bytes_draws_exact_witness :
    (Bytes (fun k : Nat => (k, k + 1)) 0 []).2.2 = ([] : List Nat).length / 8 + 1 ∧
      (Bytes (fun k : Nat => (k, k + 1)) 0 []).1 = [] :=
  ⟨(bytes_draws_exact (fun k : Nat => (k, k + 1)) 0 []).1,
    (bytes_draws_exact (fun k : Nat => (k, k + 1)) 0 []).2 rfl⟩

/-- C1 (counterexample to the claim as stated): on a zero-length buffer the
fill performs one draw, not zero — here with a concretely seeded xoshiro
instance. -/
theorem bytes_empty_still_draws :
    ¬ ((Bytes UnsafeXoshiro256ssRNG.Uint64 ⟨1, 2, 3, 4⟩ []).2.2 = 0) := by
  decide

/-- C5: a fill writes exactly `n` bytes (the output buffer has the input's
length, so no position at or beyond `n` is ever written), and for every
position `j` below both 8 and `n`, the output byte is byte `j` (low-to-high,
little-endian) of the first drawn word — this covers both the `n ≥ 8` head
chunk and the `0 < n < 8` single-word case. -/
theorem bytes_fill_correct {σ : Type} (step : σ → Nat × σ) (g : σ)
    (bytes : List Nat) (j : Nat) (hj8 : j < 8) (hjn : j < bytes.length) :
    (Bytes step g bytes).1.length = bytes.length ∧
      (Bytes step g bytes).1[j]? = some (((step g).1 >>> (8 * j)) % 256) := by
  refine ⟨?_, ?_⟩
  · simp only [Bytes]
    rw [tailLoop_length, bytesChunks_length]
  · rcases Nat.lt_or_ge bytes.length 8 with hn | hn
    · simp only [Bytes]
      rw [bytesChunks_lt8 step _ _ _ _ _ hn]
      dsimp only
      rw [tailLoop_getElem _ _ _ _ _ (Nat.zero_le j) (by omega) hjn]
      norm_num
    · obtain ⟨m, hm⟩ : ∃ m, bytes.length = m + 8 := ⟨bytes.length - 8, by omega⟩
      simp only [Bytes]
      rw [hm, bytesChunks_succ]
      have hge : 8 ≤ (bytesChunks step m (step g).2
          (setBytes8 bytes 0 (step g).1) (0 + 8) (0 + 1)).i := by
        have := bytesChunks_i_ge step m (step g).2
          (setBytes8 bytes 0 (step g).1) (0 + 8) (0 + 1)
        omega
      rw [tailLoop_below _ _ _ _ _ (by omega)]
      rw [bytesChunks_below step m _ _ _ _ j (by omega)]
      have h0 := setBytes8_getElem bytes 0 (step g).1 j hj8 (by omega)
      simpa using h0

/-- Witness for C5: a counter generator filling a 9-byte buffer yields a
9-byte result whose byte 0 is the low byte of the first drawn word. -/
theorem bytes_fill_correct_witness :
    (Bytes (fun k : Nat => (k + 3, k + 1)) 0
        [0, 0, 0, 0, 0, 0, 0, 0, 0]).1.length =
      ([0, 0, 0, 0, 0, 0, 0, 0, 0] : List Nat).length ∧
      (Bytes (fun k : Nat => (k + 3, k + 1)) 0
          [0, 0, 0, 0, 0, 0, 0, 0, 0]).1[0]? =
        some ((((fun k : Nat => (k + 3, k + 1)) 0).1 >>> (8 * 0)) % 256) :=
  bytes_fill_correct (fun k : Nat => (k + 3, k + 1)) 0 _ 0 (by decide)
    (by decide)

/-- C7: pooled `Seed` always fails with the unsupported-operation error
`"Cant seed a ThreadsafePoolRNG"` and leaves the pool unchanged — no
instance is acquired, constructed, or lost. -/
theorem pool_seed_always_fails {σ : Type} (s : ThreadsafePoolRNG σ)
    (seed : Int) :
    (s.Seed seed).1 = Except.error "Cant seed a ThreadsafePoolRNG" ∧
      (s.Seed seed).2 = s :=
  ⟨rfl, rfl⟩

/-- C6: for every bound `0 < maxN ≤ 2^32 - 1` and every pool (hence every
drawn word), the 64-bit product of the word's low 32 bits with the bound
does not wrap modulo `2^64`, and the reduction
`uint32((low32 * bound) >> 32)` is strictly below the bound. -/
theorem uint32n_lt_bound {σ : Type} (s : ThreadsafePoolRNG σ) (maxN : Int)
    (h1 : 0 < maxN) (h2 : maxN ≤ 2 ^ 32 - 1) :
    ((s.Uint64).1 &&& 0x00000000FFFFFFFF) * (maxN % (2 ^ 64 : Int)).toNat
        < 2 ^ 64 ∧
      (s.Uint32n maxN).1 < maxN.toNat := by
  have h2' : maxN ≤ 4294967295 := by norm_num at h2; exact h2
  have hmod : maxN % (2 ^ 64 : Int) = maxN :=
    Int.emod_eq_of_lt h1.le (by norm_num; omega)
  have hx : (s.Uint64).1 &&& 0x00000000FFFFFFFF < 2 ^ 32 := by
    have h : (s.Uint64).1 &&& 0x00000000FFFFFFFF ≤ 0x00000000FFFFFFFF :=
      Nat.and_le_right
    omega
  have hmlt : maxN.toNat < 2 ^ 32 := by norm_num; omega
  have hmpos : 0 < maxN.toNat := by omega
  have hprod : ((s.Uint64).1 &&& 0x00000000FFFFFFFF) * maxN.toNat < 2 ^ 64 := by
    have hle := Nat.mul_le_mul (Nat.le_of_lt_succ (by omega : (s.Uint64).1 &&&
      0x00000000FFFFFFFF < 4294967295 + 1)) (Nat.le_of_lt_succ (by omega :
      maxN.toNat < 4294967295 + 1))
    omega
  have hdiv : (((s.Uint64).1 &&& 0x00000000FFFFFFFF) * maxN.toNat) / 2 ^ 32
      < maxN.toNat := by
    rw [Nat.div_lt_iff_lt_mul (by norm_num : (0 : Nat) < 2 ^ 32)]
    rw [Nat.mul_comm maxN.toNat (2 ^ 32)]
    exact Nat.mul_lt_mul_of_pos_right hx hmpos
  refine ⟨by rw [hmod]; exact hprod, ?_⟩
  simp only [ThreadsafePoolRNG.Uint32n, u64, hmod]
  rw [Nat.mod_eq_of_lt hprod, Nat.shiftRight_eq_div_pow,
    Nat.mod_eq_of_lt (lt_trans hdiv hmlt)]
  exact hdiv

/-- Witness for C6: a concrete pool and bound 10 — the product stays below
`2^64` and the reduced value is below 10. -/
theorem uint32n_lt_bound_witness :
    ((ThreadsafePoolRNG.Uint64
          ⟨fun k : Nat => (k + 12345, k + 1), [7], fun _ => 0⟩).1 &&&
        0x00000000FFFFFFFF) * (((10 : Int)) % (2 ^ 64 : Int)).toNat
        < 2 ^ 64 ∧
      (ThreadsafePoolRNG.Uint32n
          ⟨fun k : Nat => (k + 12345, k + 1), [7], fun _ => 0⟩ 10).1 <
        (10 : Int).toNat :=
  uint32n_lt_bound ⟨fun k : Nat => (k + 12345, k + 1), [7], fun _ => 0⟩ 10
    (by norm_num) (by norm_num)

/-- C10: pooled `Int63` masks the drawn word with `0x7FFFFFFFFFFFFFFF`, so
its result is non-negative and strictly below `2 ^ 63` for every pool state
and every underlying generator. -/
theorem pool_int63_range {σ : Type} (s : ThreadsafePoolRNG σ) :
    0 ≤ (s.Int63).1 ∧ (s.Int63).1 < 2 ^ 63 := by
  constructor
  · exact Int.ofNat_nonneg _
  · have h : 0x7FFFFFFFFFFFFFFF &&& (s.Uint64).1 ≤ 0x7FFFFFFFFFFFFFFF :=
      Nat.and_le_left
    have h2 : 0x7FFFFFFFFFFFFFFF &&& (s.Uint64).1 < 2 ^ 63 := by omega
    simpa [ThreadsafePoolRNG.Int63] using Int.ofNat_lt.mpr h2

end Fastrand64
